import Mathlib

/-!
Shallow embedding of the checked-arithmetic branch-lowering mechanism of
`B3CheckSpecial.cpp` (JavaScriptCore B3, `CheckSpecial`), together with a small
machine-semantics layer for the assembler instructions that the late (cold)
recovery path emits.  The definitions mirror the source; the theorems below
settle the frozen claims about it.
-/

namespace B3Check

/-- Machine general-purpose register, identified by its number. -/
structure Reg where
  id : Nat
deriving DecidableEq, Repr

/-- Air opcodes that a `CheckSpecial` can wrap (the hidden branch kinds
dispatched on in `CheckSpecial::generate`), plus `Branch` standing for the
plain boolean checks that reach the `default:` arm of the undo switch. -/
inductive AirOpcode where
  | BranchAdd32
  | BranchAdd64
  | BranchSub32
  | BranchSub64
  | BranchNeg32
  | BranchNeg64
  | BranchMul32
  | BranchMul64
  | Branch
deriving DecidableEq, Repr

/-- B3 opcodes accepted by `numB3Args` in `B3CheckSpecial.cpp` (the
originating checked operations; any other opcode is unreachable there). -/
inductive B3Opcode where
  | CheckAdd
  | CheckSub
  | CheckMul
  | Check
deriving DecidableEq, Repr

/-- Embedding of `numB3Args(Kind kind)` from `B3CheckSpecial.cpp`:
CheckAdd/CheckSub/CheckMul have 2 B3 arguments, Check has 1. -/
def numB3Args : B3Opcode → Nat
  | .CheckAdd => 2
  | .CheckSub => 2
  | .CheckMul => 2
  | .Check => 1

/-- Assembler operations emitted on the late (cold) recovery path by
`CheckSpecial::generate`, plus bookkeeping markers (`hiddenBranch`,
`linkFailureEdge`, `runGenerator`).  Width-carrying constructors cover both
the 32-bit and the 64-bit instruction forms (`lshift32`/`lshift64`, ...).
`rshiftImm` (arithmetic, sign-extending right shift, i.e. `rshift32`) is part
of the instruction vocabulary but is never emitted by `CheckSpecial`. -/
inductive EmittedOp where
  | pushToSave (r : Reg)
  | popToRestore (r : Reg)
  | setCarry (dst : Reg)
  | lshiftImm (w amount : Nat) (dst : Reg)
  | urshiftImm (w amount : Nat) (dst : Reg)
  | rshiftImm (w amount : Nat) (dst : Reg)
  | orInst (w : Nat) (src dst : Reg)
  | subInst (w : Nat) (src dst : Reg)
  | addInst (w : Nat) (src dst : Reg)
  | negInst (w : Nat) (dst : Reg)
  | hiddenBranch (instId : Nat)
  | linkFailureEdge (instId : Nat)
  | runGenerator (instId : Nat)
deriving DecidableEq, Repr

/-- Machine state: the register file, the carry flag, and the save stack used
by `pushToSave`/`popToRestore`. -/
structure MachineState where
  regs : Reg → Nat
  carry : Bool
  stack : List Nat

/-- Write one register of the register file. -/
def setReg (st : MachineState) (r : Reg) (v : Nat) : MachineState :=
  { st with regs := Function.update st.regs r v }

/-- Semantics of one emitted assembler operation.  A `w`-bit operation reads
its operands modulo `2 ^ w` and writes its result reduced modulo `2 ^ w`;
`urshiftImm` is the logical (zero-filling) right shift, `rshiftImm` the
arithmetic (sign-extending) one.  The bookkeeping markers do not touch
machine state. -/
def step (st : MachineState) : EmittedOp → MachineState
  | .pushToSave r => { st with stack := st.regs r :: st.stack }
  | .popToRestore r =>
      { st with regs := Function.update st.regs r (st.stack.headD 0),
                stack := st.stack.tail }
  | .setCarry dst => setReg st dst (if st.carry then 1 else 0)
  | .lshiftImm w n dst => setReg st dst (((st.regs dst % 2 ^ w) <<< n) % 2 ^ w)
  | .urshiftImm w n dst => setReg st dst ((st.regs dst % 2 ^ w) >>> n)
  | .rshiftImm w n dst =>
      setReg st dst
        (if st.regs dst % 2 ^ w < 2 ^ (w - 1) then (st.regs dst % 2 ^ w) >>> n
         else (st.regs dst % 2 ^ w) >>> n + (2 ^ w - 2 ^ (w - n)))
  | .orInst w src dst =>
      setReg st dst ((st.regs dst % 2 ^ w ||| st.regs src % 2 ^ w) % 2 ^ w)
  | .subInst w src dst =>
      setReg st dst ((st.regs dst % 2 ^ w + (2 ^ w - st.regs src % 2 ^ w)) % 2 ^ w)
  | .addInst w src dst =>
      setReg st dst ((st.regs dst % 2 ^ w + st.regs src % 2 ^ w) % 2 ^ w)
  | .negInst w dst => setReg st dst ((2 ^ w - st.regs dst % 2 ^ w) % 2 ^ w)
  | .hiddenBranch _ => st
  | .linkFailureEdge _ => st
  | .runGenerator _ => st

/-- Run a sequence of emitted operations from a machine state. -/
def run (ops : List EmittedOp) (st : MachineState) : MachineState :=
  ops.foldl step st

/-- Modelled from the spec: `CCallHelpers::selectScratchGPR` is not under
src/; per the spec the undo captures the carry "into a scratch register",
i.e. this returns the first candidate GPR distinct from the given value
register. -/
def selectScratchGPR (r : Reg) : Reg :=
  if r = ⟨0⟩ then ⟨1⟩ else ⟨0⟩

/-- Embedding of the `BranchAdd32`/`BranchAdd64` arms of the undo switch in
`CheckSpecial::generate` (width `w` is 32 for the former, 64 for the latter).
`args` is the lambda-captured vector of check arguments, `args i` being
`inst.args[1 + i]`; `n` is `m_numCheckArgs`. -/
def addUndo (w n : Nat) (args : Nat → Reg) : List EmittedOp :=
  if (n = 4 ∧ args 1 = args 2 ∧ args 2 = args 3) ∨ (n = 3 ∧ args 1 = args 2) then
    let valueGPR := args 1
    let scratchGPR := selectScratchGPR valueGPR
    [.pushToSave scratchGPR,
     .setCarry scratchGPR,
     .lshiftImm w (w - 1) scratchGPR,
     .urshiftImm w 1 valueGPR,
     .orInst w scratchGPR valueGPR,
     .popToRestore scratchGPR]
  else if n = 4 then
    if args 1 = args 3 then [.subInst w (args 2) (args 3)]
    else if args 2 = args 3 then [.subInst w (args 1) (args 3)]
    else []
  else if n = 3 then [.subInst w (args 1) (args 2)]
  else []

/-- Embedding of the undo switch over `m_checkKind.opcode` in the late path of
`CheckSpecial::generate`: checked adds use `addUndo`, checked subtracts add
the saved subtrahend `args[1]` back into the destination `args[2]`, checked
negates negate the destination `args[1]` again, and every other opcode emits
no undo. -/
def lateUndoOps (op : AirOpcode) (n : Nat) (args : Nat → Reg) : List EmittedOp :=
  match op with
  | .BranchAdd32 => addUndo 32 n args
  | .BranchAdd64 => addUndo 64 n args
  | .BranchSub32 => [.addInst 32 (args 1) (args 2)]
  | .BranchSub64 => [.addInst 64 (args 1) (args 2)]
  | .BranchNeg32 => [.negInst 32 (args 1)]
  | .BranchNeg64 => [.negInst 64 (args 1)]
  | _ => []

/-- One checked instruction as it reaches `CheckSpecial::generate`: the hidden
branch kind, `m_numCheckArgs`, the captured check arguments, and an identity
used by the failure-edge / generator markers. -/
structure CheckInst where
  checkKind : AirOpcode
  numCheckArgs : Nat
  args : Nat → Reg
  instId : Nat

/-- Code emitted when one deferred late-path task runs: link the failure edge
here, emit the undo sequence, then run the recovery generator — mirroring the
body of the lambda appended to `context.latePaths`. -/
def latePathOps (inst : CheckInst) : List EmittedOp :=
  .linkFailureEdge inst.instId ::
    (lateUndoOps inst.checkKind inst.numCheckArgs inst.args ++
      [.runGenerator inst.instId])

/-- A (possibly unbound) jump handle, as returned by branch generation. -/
structure Jump where
  isSet : Bool
deriving DecidableEq, Repr

/-- Fatal internal errors of `CheckSpecial::generate`; `hiddenBranchJumpUnset`
models the `ASSERT(fail.isSet())` right after emitting the hidden branch. -/
inductive GenError where
  | hiddenBranchJumpUnset
deriving DecidableEq, Repr

/-- Generation-time state: the shared output buffer and the ordered
`context.latePaths` queue of deferred recovery tasks. -/
structure GenState where
  buffer : List EmittedOp
  latePaths : List (List EmittedOp)

/-- Embedding of `CheckSpecial::generate` after the hidden branch has been
emitted and has yielded the jump `fail`: assert the jump is set, append
exactly one deferred recovery task to `context.latePaths`, and return an
unset jump (`return CCallHelpers::Jump();` — not a terminal as far as Air
thinks). -/
def generate (fail : Jump) (inst : CheckInst) (st : GenState) :
    Except GenError (Jump × GenState) :=
  if fail.isSet then
    .ok (⟨false⟩, { st with latePaths := st.latePaths ++ [latePathOps inst] })
  else
    .error .hiddenBranchJumpUnset

/-- Modelled from the spec: generation of the hidden branch itself
(`Air::Inst::generate`) is not under src/; per the spec it emits the branch
into the shared output buffer and yields a set (bindable) failure-edge
jump. -/
def emitHiddenBranch (inst : CheckInst) (st : GenState) : Jump × GenState :=
  (⟨true⟩, { st with buffer := st.buffer ++ [.hiddenBranch inst.instId] })

/-- Hot-path generation of one checked instruction: emit the hidden branch,
then let `CheckSpecial::generate` enqueue its deferred recovery task.  The
error arm is unreachable because the emitted hidden branch always yields a
set jump. -/
def hotStep (st : GenState) (inst : CheckInst) : GenState :=
  let (fail, st1) := emitHiddenBranch inst st
  match generate fail inst st1 with
  | .ok (_, st2) => st2
  | .error _ => st1

/-- Modelled from the spec: the Air generation driver (not under src/)
generates every instruction of the unit in order (the hot path), then
executes the queued late-path tasks strictly in enqueue order, appending
their output to the same buffer. -/
def generateUnit (insts : List CheckInst) : List EmittedOp :=
  let st := insts.foldl hotStep ⟨[], []⟩
  st.buffer ++ st.latePaths.flatten

/-- Unsigned `w`-bit subtraction `a - b` for operand values below `2 ^ w`. -/
def wrapSub (w a b : Nat) : Nat :=
  (a + (2 ^ w - b % 2 ^ w)) % 2 ^ w

/-- Embedding of `CheckSpecial::isValid`: the hidden branch is a valid form,
the generic stackmap validity (`isValidImpl`) holds, and
`inst.args.size() - m_numCheckArgs - 1 == inst.origin->numChildren() -
numB3Args(inst)`, the left side computed in 64-bit (`size_t`) and the right
side in 32-bit (`unsigned`) wraparound arithmetic.  The external
collaborators are abstracted as the booleans `hbValidForm` and
`validImpl`. -/
def isValid (hbValidForm validImpl : Bool) (argsSize numCheckArgs numChildren : Nat)
    (kind : B3Opcode) : Bool :=
  hbValidForm && validImpl &&
    decide (wrapSub 64 (wrapSub 64 argsSize numCheckArgs) 1 =
      wrapSub 32 numChildren (numB3Args kind))

/-- Embedding of the `firstRecoverableIndex` computation in
`CheckSpecial::forEachArg`: index 1 exactly when the hidden branch is
`BranchAdd32` or `BranchAdd64`, nothing otherwise. -/
def firstRecoverableIndex (op : AirOpcode) : Option Nat :=
  if op = .BranchAdd32 ∨ op = .BranchAdd64 then some 1 else none

/-- Modelled from the spec: `forEachArgImpl` (from the generic stackmap
special, not under src/) marks as recoverable exactly the extra live operand
whose stackmap index equals the `firstRecoverableIndex` it is handed. -/
def extraOperandRecoverable (op : AirOpcode) (i : Nat) : Prop :=
  firstRecoverableIndex op = some i

/-- Written from the words of spec §4.6, for refinement comparison only: the
self-alias undo sequence as the spec describes it, with an arithmetic
(sign-extending) right shift as the third undo step. -/
def specSelfAliasUndoArithShift (w : Nat) (valueGPR scratchGPR : Reg) :
    List EmittedOp :=
  [.pushToSave scratchGPR,
   .setCarry scratchGPR,
   .lshiftImm w (w - 1) scratchGPR,
   .rshiftImm w 1 valueGPR,
   .orInst w scratchGPR valueGPR,
   .popToRestore scratchGPR]

/-- For a four-operand checked add, the saved source operand that is not the
destination register (the operand the undo path subtracts back out). -/
def otherSource (args : Nat → Reg) : Reg :=
  if args 1 = args 3 then args 2 else args 1

theorem selectScratchGPR_ne (r : Reg) : selectScratchGPR r ≠ r := by
  unfold selectScratchGPR
  split
  · simp_all
  · exact fun h => by simp_all

theorem two_pow_lor_eq_add {k x : Nat} (h : x < 2 ^ k) : 2 ^ k ||| x = 2 ^ k + x := by
  induction k generalizing x with
  | zero => interval_cases x; decide
  | succ k ih =>
    rcases Nat.even_or_odd x with he | ho
    · obtain ⟨m, rfl⟩ := he
      have hm : m < 2 ^ k := by omega
      have h2 : (2 : Nat) ^ (k + 1) = Nat.bit false (2 ^ k) := by
        simp [Nat.bit_false]; ring
      have hx : m + m = Nat.bit false m := by simp [Nat.bit_false]; ring
      rw [h2, hx, Nat.lor_bit, ih hm]
      simp [Nat.bit_false]; ring
    · obtain ⟨m, rfl⟩ := ho
      have hm : m < 2 ^ k := by omega
      have h2 : (2 : Nat) ^ (k + 1) = Nat.bit false (2 ^ k) := by
        simp [Nat.bit_false]; ring
      have hx : 2 * m + 1 = Nat.bit true m := by simp [Nat.bit_true]
      rw [h2, hx, Nat.lor_bit, ih hm]
      simp [Nat.bit_true]; ring

/-- C1: for a `w`-bit checked add lowered with all operands aliased to one
register (`numCheckArgs = 4` with `args 1 = args 2 = args 3`, or
`numCheckArgs = 3` with `args 1 = args 2`), running the emitted undo sequence
on the failure-path machine state — the value register holding the overflowed
result `r = (a + a) mod 2 ^ w` and the carry flag holding the carry-out of
the `w`-bit addition — reconstructs exactly `a` in the value register:
`(c <<< (w - 1)) ||| (r >>> 1) = a`. -/
theorem checkedAdd_selfAlias_undo_reconstructs
    (w a n : Nat) (op : AirOpcode) (args : Nat → Reg) (st : MachineState)
    (hop : (op = .BranchAdd32 ∧ w = 32) ∨ (op = .BranchAdd64 ∧ w = 64))
    (halias : (n = 4 ∧ args 1 = args 2 ∧ args 2 = args 3) ∨ (n = 3 ∧ args 1 = args 2))
    (ha : a < 2 ^ w)
    (hr : st.regs (args 1) = (a + a) % 2 ^ w)
    (hc : st.carry = decide (2 ^ w ≤ a + a)) :
    (run (lateUndoOps op n args) st).regs (args 1) = a := by
  have hne : selectScratchGPR (args 1) ≠ args 1 := selectScratchGPR_ne (args 1)
  have hundo : lateUndoOps op n args = addUndo w n args := by
    rcases hop with ⟨rfl, rfl⟩ | ⟨rfl, rfl⟩ <;> rfl
  rw [hundo]
  unfold addUndo
  rw [if_pos halias]
  simp only [run, List.foldl, step, setReg]
  simp [Function.update_apply, Ne.symm hne, hne, hr, hc]
  have hw1 : 1 ≤ w := by rcases hop with ⟨_, rfl⟩ | ⟨_, rfl⟩ <;> omega
  have hk : (2 : Nat) ^ w = 2 * 2 ^ (w - 1) := by
    conv_lhs => rw [show w = (w - 1) + 1 by omega]
    ring
  have hKpos : 0 < (2 : Nat) ^ (w - 1) := Nat.pos_pow_of_pos _ (by norm_num)
  by_cases hcase : 2 ^ w ≤ a + a
  · have h1 : (a + a) % 2 ^ w = a + a - 2 ^ w := by
      rw [Nat.mod_eq_sub_mod hcase, Nat.mod_eq_of_lt (by omega)]
    have h2 : (a + a - 2 ^ w) % 2 ^ w = a + a - 2 ^ w := Nat.mod_eq_of_lt (by omega)
    rw [if_pos hcase]
    simp only [h1, h2, Nat.shiftRight_eq_div_pow, pow_one]
    rw [show (a + a - 2 ^ w) / 2 = a - 2 ^ (w - 1) by omega]
    rw [Nat.mod_eq_of_lt (show a - 2 ^ (w - 1) < 2 ^ w by omega)]
    rw [Nat.mod_eq_of_lt (show (1 : Nat) < 2 ^ w by omega)]
    rw [Nat.shiftLeft_eq, one_mul]
    rw [Nat.mod_eq_of_lt (show (2 : Nat) ^ (w - 1) < 2 ^ w by omega)]
    rw [Nat.lor_comm, two_pow_lor_eq_add (show a - 2 ^ (w - 1) < 2 ^ (w - 1) by omega)]
    rw [show 2 ^ (w - 1) + (a - 2 ^ (w - 1)) = a by omega]
    exact Nat.mod_eq_of_lt ha
  · have h0 : (a + a) % 2 ^ w = a + a := Nat.mod_eq_of_lt (by omega)
    rw [if_neg hcase]
    simp only [h0, Nat.shiftRight_eq_div_pow, pow_one]
    rw [show (a + a) / 2 = a by omega]
    simp [Nat.zero_shiftLeft, Nat.mod_eq_of_lt ha]

/-- Witness for C1 at `w = 32`, `a = 3000000000` (carry-out set): the undo
run reconstructs `a` from the wrapped doubled value `1705032704`. -/
theorem checkedAdd_selfAlias_undo_reconstructs_witness :
    (run (lateUndoOps .BranchAdd32 3 (fun _ => ⟨0⟩))
        ⟨fun r => if r = ⟨0⟩ then 1705032704 else 0, true, []⟩).regs ⟨0⟩ = 3000000000 :=
  checkedAdd_selfAlias_undo_reconstructs 32 3000000000 3 .BranchAdd32 (fun _ => ⟨0⟩) _
    (Or.inl ⟨rfl, rfl⟩) (Or.inr ⟨rfl, rfl⟩) (by norm_num) (by decide) (by decide)

/-- C2: for all `w`-bit values `a`, `b`, the undo emitted for a checked
subtract (`BranchSub32`/`BranchSub64`) is the single instruction adding the
saved subtrahend `args 1` back to the destination `args 2`, and running it on
the failure-path state — destination holding `(a - b) mod 2 ^ w`, subtrahend
register holding `b` — recovers `a` exactly, whether or not the subtraction
overflowed. -/
theorem checkedSub_undo_recovers_minuend
    (w a b n : Nat) (op : AirOpcode) (args : Nat → Reg) (st : MachineState)
    (hop : (op = .BranchSub32 ∧ w = 32) ∨ (op = .BranchSub64 ∧ w = 64))
    (ha : a < 2 ^ w) (hb : b < 2 ^ w)
    (hdst : st.regs (args 2) = (a + (2 ^ w - b)) % 2 ^ w)
    (hsrc : st.regs (args 1) = b) :
    lateUndoOps op n args = [.addInst w (args 1) (args 2)] ∧
    (run (lateUndoOps op n args) st).regs (args 2) = a := by
  have hundo : lateUndoOps op n args = [.addInst w (args 1) (args 2)] := by
    rcases hop with ⟨rfl, rfl⟩ | ⟨rfl, rfl⟩ <;> rfl
  refine ⟨hundo, ?_⟩
  rw [hundo]
  simp [run, step, setReg, Function.update_apply, hdst, hsrc]
  rw [show a + (2 ^ w - b) + b = a + 2 ^ w by omega, Nat.add_mod_right,
      Nat.mod_eq_of_lt ha]

/-- Witness for C2 at `w = 32`, `a = 5`, `b = 9` (an underflowing subtract):
adding the saved subtrahend back to `4294967292` recovers `5`. -/
theorem checkedSub_undo_recovers_minuend_witness :
    lateUndoOps .BranchSub32 3 (fun i => ⟨i⟩) = [.addInst 32 ⟨1⟩ ⟨2⟩] ∧
    (run (lateUndoOps .BranchSub32 3 (fun i => ⟨i⟩))
        ⟨fun r => if r = ⟨1⟩ then 9 else if r = ⟨2⟩ then 4294967292 else 0,
         false, []⟩).regs ⟨2⟩ = 5 :=
  checkedSub_undo_recovers_minuend 32 5 9 3 .BranchSub32 (fun i => ⟨i⟩) _
    (Or.inl ⟨rfl, rfl⟩) (by norm_num) (by norm_num) (by decide) (by decide)

/-- C3, counterexample: the third undo step emitted for the fully
self-aliased checked add is `urshift` (logical, zero-filling right shift),
not the arithmetic (sign-extending) right shift the claim states: the emitted
sequence differs from the spec-worded arithmetic-shift sequence, and at
`a = 2 ^ 30` (value register holding `r = 2 ^ 31`, carry clear) the
arithmetic-shift sequence would produce `3221225472` while the emitted one
correctly reconstructs `1073741824 = 2 ^ 30`. -/
theorem selfAlias_undo_shift_not_arithmetic :
    lateUndoOps .BranchAdd32 3 (fun _ => ⟨0⟩) ≠
      specSelfAliasUndoArithShift 32 ⟨0⟩ (selectScratchGPR ⟨0⟩) ∧
    (run (specSelfAliasUndoArithShift 32 ⟨0⟩ (selectScratchGPR ⟨0⟩))
        ⟨fun r => if r = ⟨0⟩ then 2147483648 else 0, false, []⟩).regs ⟨0⟩ = 3221225472 ∧
    (run (lateUndoOps .BranchAdd32 3 (fun _ => ⟨0⟩))
        ⟨fun r => if r = ⟨0⟩ then 2147483648 else 0, false, []⟩).regs ⟨0⟩ = 1073741824 :=
  ⟨by decide, by decide, by decide⟩

/-- C3, amended: in the undo sequence emitted for a fully self-aliased
checked add, the third step applied to the corrupted result register is a
logical (zero-filling) right shift by one bit, followed by OR-ing the
carry-derived sign bit back in. -/
theorem selfAlias_undo_shift_is_logical
    (w n : Nat) (op : AirOpcode) (args : Nat → Reg)
    (hop : (op = .BranchAdd32 ∧ w = 32) ∨ (op = .BranchAdd64 ∧ w = 64))
    (halias : (n = 4 ∧ args 1 = args 2 ∧ args 2 = args 3) ∨ (n = 3 ∧ args 1 = args 2)) :
    lateUndoOps op n args =
      [.pushToSave (selectScratchGPR (args 1)),
       .setCarry (selectScratchGPR (args 1)),
       .lshiftImm w (w - 1) (selectScratchGPR (args 1)),
       .urshiftImm w 1 (args 1),
       .orInst w (selectScratchGPR (args 1)) (args 1),
       .popToRestore (selectScratchGPR (args 1))] := by
  have hundo : lateUndoOps op n args = addUndo w n args := by
    rcases hop with ⟨rfl, rfl⟩ | ⟨rfl, rfl⟩ <;> rfl
  rw [hundo]
  unfold addUndo
  rw [if_pos halias]

/-- Witness for the amended C3 at `w = 32`, `numCheckArgs = 3`, all check
arguments in register 0. -/
theorem selfAlias_undo_shift_is_logical_witness :
    lateUndoOps .BranchAdd32 3 (fun _ => ⟨0⟩) =
      [.pushToSave (selectScratchGPR ⟨0⟩),
       .setCarry (selectScratchGPR ⟨0⟩),
       .lshiftImm 32 31 (selectScratchGPR ⟨0⟩),
       .urshiftImm 32 1 ⟨0⟩,
       .orInst 32 (selectScratchGPR ⟨0⟩) ⟨0⟩,
       .popToRestore (selectScratchGPR ⟨0⟩)] :=
  selfAlias_undo_shift_is_logical 32 3 .BranchAdd32 (fun _ => ⟨0⟩)
    (Or.inl ⟨rfl, rfl⟩) (Or.inr ⟨rfl, rfl⟩)

/-- C4: for every `w`-bit value `a` other than the most-negative
representable value `2 ^ (w - 1)`, the undo emitted for a checked negate
(`BranchNeg32`/`BranchNeg64`) is the single instruction negating the
destination again, and running it on the failure-path state — the register
holding `neg(a) = (2 ^ w - a) mod 2 ^ w` — restores `a` exactly. -/
theorem checkedNeg_undo_restores
    (w a n : Nat) (op : AirOpcode) (args : Nat → Reg) (st : MachineState)
    (hop : (op = .BranchNeg32 ∧ w = 32) ∨ (op = .BranchNeg64 ∧ w = 64))
    (ha : a < 2 ^ w) (hmin : a ≠ 2 ^ (w - 1))
    (hdst : st.regs (args 1) = (2 ^ w - a) % 2 ^ w) :
    lateUndoOps op n args = [.negInst w (args 1)] ∧
    (run (lateUndoOps op n args) st).regs (args 1) = a := by
  have hundo : lateUndoOps op n args = [.negInst w (args 1)] := by
    rcases hop with ⟨rfl, rfl⟩ | ⟨rfl, rfl⟩ <;> rfl
  refine ⟨hundo, ?_⟩
  rw [hundo]
  simp [run, step, setReg, Function.update_apply, hdst]
  rcases Nat.eq_zero_or_pos a with rfl | hpos
  · simp
  · rw [Nat.mod_eq_of_lt (show 2 ^ w - a < 2 ^ w by omega),
        show 2 ^ w - (2 ^ w - a) = a by omega, Nat.mod_eq_of_lt ha]

/-- Witness for C4 at `w = 32`, `a = 7`: negating `4294967289` again
restores `7`. -/
theorem checkedNeg_undo_restores_witness :
    lateUndoOps .BranchNeg32 2 (fun _ => ⟨0⟩) = [.negInst 32 ⟨0⟩] ∧
    (run (lateUndoOps .BranchNeg32 2 (fun _ => ⟨0⟩))
        ⟨fun r => if r = ⟨0⟩ then 4294967289 else 0, false, []⟩).regs ⟨0⟩ = 7 :=
  checkedNeg_undo_restores 32 7 2 .BranchNeg32 (fun _ => ⟨0⟩) _
    (Or.inl ⟨rfl, rfl⟩) (by norm_num) (by decide) (by decide)

/-- C5: for a four-operand checked add whose two source operands are distinct
and exactly one of them equals the destination `args 3`, the emitted undo is
the single subtraction of the saved source operand that is not the
destination register, and for all `w`-bit source values running it recovers
the pre-operation destination value exactly, overflowed or not. -/
theorem checkedAdd_mixedAlias_undo_subtracts_other
    (w a srcVal : Nat) (op : AirOpcode) (args : Nat → Reg) (st : MachineState)
    (hop : (op = .BranchAdd32 ∧ w = 32) ∨ (op = .BranchAdd64 ∧ w = 64))
    (hdiff : args 1 ≠ args 2)
    (halias : args 1 = args 3 ∨ args 2 = args 3)
    (ha : a < 2 ^ w) (hs : srcVal < 2 ^ w)
    (hsrc : st.regs (otherSource args) = srcVal)
    (hdst : st.regs (args 3) = (a + srcVal) % 2 ^ w) :
    lateUndoOps op 4 args = [.subInst w (otherSource args) (args 3)] ∧
    (run (lateUndoOps op 4 args) st).regs (args 3) = a := by
  have hsa : ¬((4 = 4 ∧ args 1 = args 2 ∧ args 2 = args 3) ∨ ((4 : Nat) = 3 ∧ args 1 = args 2)) := by
    rintro (⟨-, h12, -⟩ | ⟨h43, -⟩)
    · exact hdiff h12
    · omega
  have hundo : lateUndoOps op 4 args = [.subInst w (otherSource args) (args 3)] := by
    have hbody : addUndo w 4 args = [.subInst w (otherSource args) (args 3)] := by
      unfold addUndo
      rw [if_neg hsa, if_pos rfl]
      unfold otherSource
      rcases halias with h13 | h23
      · rw [if_pos h13, if_pos h13]
      · have h13 : args 1 ≠ args 3 := fun h => hdiff (h.trans h23.symm)
        rw [if_neg h13, if_pos h23, if_neg h13]
    rcases hop with ⟨rfl, rfl⟩ | ⟨rfl, rfl⟩ <;> simpa [lateUndoOps] using hbody
  refine ⟨hundo, ?_⟩
  rw [hundo]
  simp [run, step, setReg, Function.update_apply, hdst, hsrc]
  rw [Nat.mod_eq_of_lt hs, show a + srcVal + (2 ^ w - srcVal) = a + 2 ^ w by omega,
      Nat.add_mod_right, Nat.mod_eq_of_lt ha]

/-- Witness for C5 at `w = 32`: sources in registers 7 and 5 with register 7
also the destination; subtracting the saved register 5 recovers 10. -/
theorem checkedAdd_mixedAlias_undo_subtracts_other_witness :
    lateUndoOps .BranchAdd32 4 (fun i => if i = 2 then ⟨5⟩ else ⟨7⟩) =
      [.subInst 32 (otherSource (fun i => if i = 2 then ⟨5⟩ else ⟨7⟩)) ⟨7⟩] ∧
    (run (lateUndoOps .BranchAdd32 4 (fun i => if i = 2 then ⟨5⟩ else ⟨7⟩))
        ⟨fun r => if r = ⟨5⟩ then 20 else if r = ⟨7⟩ then 30 else 0,
         false, []⟩).regs ⟨7⟩ = 10 :=
  checkedAdd_mixedAlias_undo_subtracts_other 32 10 20 .BranchAdd32
    (fun i => if i = 2 then ⟨5⟩ else ⟨7⟩) _
    (Or.inl ⟨rfl, rfl⟩) (by decide) (Or.inl rfl) (by norm_num) (by norm_num)
    (by decide) (by decide)

/-- C6: whenever the hidden branch produced a set failure-edge jump,
`CheckSpecial::generate` succeeds, appends its one recovery task, and
returns an unset (non-terminal) jump to its caller; if the hidden branch
produced no set jump, the fatal assertion fires. -/
theorem generate_returns_unset_jump
    (fail : Jump) (inst : CheckInst) (st : GenState) (h : fail.isSet = true) :
    generate fail inst st =
      .ok (⟨false⟩, { st with latePaths := st.latePaths ++ [latePathOps inst] }) ∧
    generate ⟨false⟩ inst st = .error .hiddenBranchJumpUnset := by
  constructor
  · simp [generate, h]
  · rfl

/-- Witness for C6 on a concrete plain-check instruction. -/
theorem generate_returns_unset_jump_witness :
    generate ⟨true⟩ ⟨.Branch, 1, (fun _ => ⟨0⟩), 0⟩ ⟨[], []⟩ =
      .ok (⟨false⟩, ⟨[], [latePathOps ⟨.Branch, 1, (fun _ => ⟨0⟩), 0⟩]⟩) ∧
    generate ⟨false⟩ ⟨.Branch, 1, (fun _ => ⟨0⟩), 0⟩ ⟨[], []⟩ =
      .error .hiddenBranchJumpUnset :=
  generate_returns_unset_jump ⟨true⟩ ⟨.Branch, 1, (fun _ => ⟨0⟩), 0⟩ ⟨[], []⟩ rfl

/-- C7: within the machine-width ranges of the source types,
`CheckSpecial::isValid` returns true exactly when the hidden branch is a
valid form, the generic stackmap validity holds, and
`argsSize = 1 + numCheckArgs + (numChildren - numB3Args kind)`. -/
theorem isValid_iff_operand_invariant
    (hbValidForm validImpl : Bool) (argsSize numCheckArgs numChildren : Nat) (kind : B3Opcode)
    (hS : argsSize < 2 ^ 64) (hC : numCheckArgs < 2 ^ 32) (hN : numChildren < 2 ^ 32)
    (hk : numB3Args kind ≤ numChildren) :
    isValid hbValidForm validImpl argsSize numCheckArgs numChildren kind = true ↔
      (hbValidForm = true ∧ validImpl = true ∧
        argsSize = 1 + numCheckArgs + (numChildren - numB3Args kind)) := by
  simp only [isValid, wrapSub, Bool.and_eq_true, decide_eq_true_eq, and_assoc,
    and_congr_right_iff]
  intro _ _
  omega

/-- Witness for C7: a `CheckAdd` lowered with three check arguments and two
children satisfies the operand-count invariant with `argsSize = 4`. -/
theorem isValid_iff_operand_invariant_witness :
    isValid true true 4 3 2 .CheckAdd = true ↔
      (true = true ∧ true = true ∧ 4 = 1 + 3 + (2 - numB3Args .CheckAdd)) :=
  isValid_iff_operand_invariant true true 4 3 2 .CheckAdd (by norm_num) (by norm_num)
    (by norm_num) (by decide)

/-- C8: an extra live operand is marked recoverable exactly when it is the
first one (stackmap index 1) and the hidden-branch opcode is `BranchAdd32` or
`BranchAdd64`; every other opcode has no recoverable extra operand. -/
theorem recoverable_iff_branchAdd (op : AirOpcode) (i : Nat) :
    extraOperandRecoverable op i ↔
      (i = 1 ∧ (op = .BranchAdd32 ∨ op = .BranchAdd64)) := by
  cases op <;> simp [extraOperandRecoverable, firstRecoverableIndex, eq_comm]

theorem hotStep_foldl (insts : List CheckInst) (st : GenState) :
    insts.foldl hotStep st =
      ⟨st.buffer ++ insts.map (fun i => EmittedOp.hiddenBranch i.instId),
       st.latePaths ++ insts.map latePathOps⟩ := by
  induction insts generalizing st with
  | nil => simp
  | cons i rest ih =>
    simp only [List.foldl_cons, List.map_cons, ih]
    simp [hotStep, emitHiddenBranch, generate]

/-- C9: generating a unit appends exactly one deferred recovery task per
checked instruction, in order (`latePaths = insts.map latePathOps`), and the
final output buffer is all hot-path hidden branches followed by all recovery
stubs, the stubs executing strictly in enqueue order after every hot-path
instruction. -/
theorem latePaths_execute_in_order_after_hot (insts : List CheckInst) :
    (insts.foldl hotStep ⟨[], []⟩).latePaths = insts.map latePathOps ∧
    generateUnit insts =
      insts.map (fun i => EmittedOp.hiddenBranch i.instId) ++
        (insts.map latePathOps).flatten := by
  constructor
  · simp [hotStep_foldl]
  · simp [generateUnit, hotStep_foldl]

/-- C10: for a four-operand checked add whose destination `args 3` is
distinct from both sources, the failure path emits no undo arithmetic at all:
the late path is just the failure-edge link followed by the recovery
generator. -/
theorem checkedAdd_distinctDest_emits_no_undo
    (op : AirOpcode) (args : Nat → Reg) (instId : Nat)
    (hop : op = .BranchAdd32 ∨ op = .BranchAdd64)
    (h1 : args 1 ≠ args 3) (h2 : args 2 ≠ args 3) :
    lateUndoOps op 4 args = [] ∧
    latePathOps ⟨op, 4, args, instId⟩ =
      [.linkFailureEdge instId, .runGenerator instId] := by
  have hsa : ¬((4 = 4 ∧ args 1 = args 2 ∧ args 2 = args 3) ∨ ((4 : Nat) = 3 ∧ args 1 = args 2)) := by
    rintro (⟨-, -, h23⟩ | ⟨h43, -⟩)
    · exact h2 h23
    · omega
  have hbody : addUndo 32 4 args = [] ∧ addUndo 64 4 args = [] := by
    constructor <;>
    · unfold addUndo
      rw [if_neg hsa, if_pos rfl, if_neg h1, if_neg h2]
  have hundo : lateUndoOps op 4 args = [] := by
    rcases hop with rfl | rfl
    · exact hbody.1
    · exact hbody.2
  exact ⟨hundo, by simp [latePathOps, hundo]⟩

/-- Witness for C10 with all four check arguments in distinct registers. -/
theorem checkedAdd_distinctDest_emits_no_undo_witness :
    lateUndoOps .BranchAdd32 4 (fun i => ⟨i⟩) = [] ∧
    latePathOps ⟨.BranchAdd32, 4, (fun i => ⟨i⟩), 7⟩ =
      [.linkFailureEdge 7, .runGenerator 7] :=
  checkedAdd_distinctDest_emits_no_undo .BranchAdd32 (fun i => ⟨i⟩) 7
    (Or.inl rfl) (by decide) (by decide)

end B3Check
